import Mathlib

/-
Shallow embedding of `src/src/sip_it.rs` (the Sip-It lexer).

Embedding conventions, in correspondence with the Rust source:

* `Position` mirrors `struct Position` field by field (`idx : isize` as
  `Int`, `ln : usize` as `Nat`, `col : isize` as `Int`).  `Position.advance`
  mirrors `Position::advance`; `Position::copy` is the identity under value
  semantics and needs no definition.

* The `Lexer` keeps a cursor `pos.idx` into `text` and a cache
  `current_char = text.chars().nth(pos.idx as usize)`, refreshed by
  `Lexer::advance` which bumps `idx` by exactly one.  After `Lexer::new`
  (which performs one initial advance from idx = -1) the cache is therefore
  always the head of the suffix `text[idx..]`, and each `advance` drops one
  character from that suffix.  We embed the cursor-plus-cache as the list of
  remaining characters: `current_char` is the head of the list and
  `Lexer::advance` is `List.tail` together with `Position.advance`.

* The `while` loop of `Lexer::make_tokens` is embedded with a fuel
  parameter; `none` marks fuel exhaustion, which is a model artifact only:
  every loop iteration consumes at least one character, so fuel equal to the
  input length suffices (`run_no_fuel_exhaustion` below proves the artifact
  is unreachable from `run`).

* `num_str.parse::<isize>().expect(..)` / `parse::<f64>().expect(..)` can
  panic, so number scanning is `Except String`, the `.error` carrying the
  panic message; a panic surfaces as the `LexOutcome.panic` outcome of a
  run.  `parseIsize` models `str::parse::<isize>` on a 64-bit target
  (isize = i64), restricted to the sign-free digit/dot buffers the lexer
  builds: it fails on an empty buffer, on any non-digit character (such as
  `.`), and on overflow past `i64::MAX`.  `parseF64` models
  `str::parse::<f64>` on digit/dot strings: it fails unless the buffer
  contains a digit and consists of digits with at most one dot.  The f64
  payload is carried as the exact rational value of the literal; where a
  claim's truth depends on the IEEE-754 binary64 value itself (the trailing
  dot claim, whose buffers are integer-valued), the rounding that
  `str::parse::<f64>` applies — it is correctly rounded, round to nearest,
  ties to even — is modelled by `roundF64Nat` on the carried integer, valid
  below the binary64 overflow threshold 2^1024 (larger literals parse to
  infinity, farther still from the exact value).  The `Display` of floats
  is not modelled; no claim depends on it.

* `rustIsWhitespace` is `char::is_whitespace`, the Unicode `White_Space`
  property (25 code points).
-/

namespace SipIt

/-- `const DIGITS: &str = "0123456789"`. -/
def DIGITS : String := "0123456789"

/-- `DIGITS.contains(current_char)` from `Lexer::make_tokens`. -/
def digitsContains (c : Char) : Bool := DIGITS.toList.contains c

/-- `char::is_whitespace`: the Unicode `White_Space` property. -/
def rustIsWhitespace (c : Char) : Bool :=
  ['\t', '\n', '\x0b', '\x0c', '\r', ' ', '\x85', '\xa0',
   Char.ofNat 0x1680, Char.ofNat 0x2000, Char.ofNat 0x2001, Char.ofNat 0x2002,
   Char.ofNat 0x2003, Char.ofNat 0x2004, Char.ofNat 0x2005, Char.ofNat 0x2006,
   Char.ofNat 0x2007, Char.ofNat 0x2008, Char.ofNat 0x2009, Char.ofNat 0x200A,
   Char.ofNat 0x2028, Char.ofNat 0x2029, Char.ofNat 0x202F, Char.ofNat 0x205F,
   Char.ofNat 0x3000].contains c

/-- `struct Position` (`fn_name`/`ftxt` retained for error context). -/
structure Position where
  idx : Int
  ln : Nat
  col : Int
  fn_name : String
  ftxt : String
deriving DecidableEq

/-- `Position::advance`: `idx += 1; col += 1;` then the newline check. -/
def Position.advance (p : Position) (current_char : Option Char) : Position :=
  let p' := { p with idx := p.idx + 1, col := p.col + 1 }
  if current_char = some '\n' then { p' with ln := p'.ln + 1, col := 0 } else p'

/-- `enum TokenType` (the f64 payload idealized as the exact rational). -/
inductive TokenType where
  | INT (n : Int)
  | FLOAT (q : ℚ)
  | PLUS
  | MINUS
  | MUL
  | DIV
  | LPAREN
  | RPAREN
deriving DecidableEq

/-- `struct Token`. -/
structure Token where
  type_ : TokenType
deriving DecidableEq

/-- `impl fmt::Display for Token`.  Rendering a FLOAT payload (Rust shows
the f64 shortest-roundtrip form) is not modelled beyond printing the
rational; no claim depends on it. -/
def Token.render (t : Token) : String :=
  match t.type_ with
  | .INT n => "INT(" ++ toString n ++ ")"
  | .FLOAT q => "FLOAT(" ++ toString q ++ ")"
  | .PLUS => "PLUS"
  | .MINUS => "MINUS"
  | .MUL => "MULTIPLY"
  | .DIV => "DIVIDE"
  | .LPAREN => "LEFT-PAREN"
  | .RPAREN => "RPAREN"

/-- `pub struct Error`. -/
structure Error where
  type_ : String
  pos_start : Position
  pos_end : Position
  details : String
deriving DecidableEq

/-- `impl fmt::Display for Error`: `"{}: {}\nFile {}, line {}"`. -/
def Error.render (e : Error) : String :=
  e.type_ ++ ": " ++ e.details ++ "\nFile " ++ e.pos_start.fn_name ++
    ", line " ++ toString (e.pos_start.ln + 1)

/-- Value of one ASCII digit character. -/
def digitVal (c : Char) : Nat := c.toNat - '0'.toNat

/-- Value of a string of ASCII digits, most significant first. -/
def digitsToNat (l : List Char) : Nat := l.foldl (fun a c => a * 10 + digitVal c) 0

/-- `i64::MAX`, the overflow bound of `str::parse::<isize>` on 64-bit. -/
def isizeMax : Int := 9223372036854775807

/-- `str::parse::<isize>` on the sign-free buffers the lexer builds:
fails on an empty buffer, on a non-digit character, and on overflow. -/
def parseIsize (s : List Char) : Option Int :=
  if s ≠ [] ∧ s.all Char.isDigit = true then
    if (digitsToNat s : Int) ≤ isizeMax then some (digitsToNat s) else none
  else none

/-- `str::parse::<f64>` on digit/dot strings, the value idealized as the
exact rational of the literal: requires at least one digit and at most one
dot among digits. -/
def parseF64 (s : List Char) : Option ℚ :=
  if s.any Char.isDigit = true ∧ s.all (fun c => c.isDigit || c == '.') = true ∧
      s.count '.' ≤ 1 then
    let ip := s.takeWhile (fun c => c != '.')
    let fp := (s.dropWhile (fun c => c != '.')).drop 1
    some ((digitsToNat ip : ℚ) + (digitsToNat fp : ℚ) / (10 : ℚ) ^ fp.length)
  else none

/-- The tail of `Lexer::make_number` after its loop: parse the accumulated
buffer, `dot_count == 0` as an isize, otherwise as an f64; `.expect` turns
a failed parse into a panic, carried as `.error` with the panic message. -/
def make_number_result (num_str : List Char) (dot_count : Nat) (rest : List Char)
    (pos : Position) : Except String (Token × List Char × Position) :=
  if dot_count = 0 then
    match parseIsize num_str with
    | some n => .ok (Token.mk (.INT n), rest, pos)
    | none => .error "A valid integer was expected"
  else
    match parseF64 num_str with
    | some q => .ok (Token.mk (.FLOAT q), rest, pos)
    | none => .error "A valid float was expected"

/-- The loop of `Lexer::make_number`: accumulate ASCII digits, and a first
dot; a second dot or any other character breaks without being consumed.
Returns the token, the unconsumed remainder, and the advanced position. -/
def make_number : List Char → Nat → List Char → Position →
    Except String (Token × List Char × Position)
  | num_str, dot_count, [], pos => make_number_result num_str dot_count [] pos
  | num_str, dot_count, c :: cs, pos =>
    if c.isDigit then
      make_number (num_str ++ [c]) dot_count cs (pos.advance (some c))
    else if c = '.' then
      if dot_count = 1 then make_number_result num_str dot_count (c :: cs) pos
      else make_number (num_str ++ ['.']) (dot_count + 1) cs (pos.advance (some c))
    else make_number_result num_str dot_count (c :: cs) pos

/-- Outcome of one `run`: the returned pair `(Vec<Token>, Option<Error>)`,
or a panic escaping from `.expect` inside number scanning. -/
inductive LexOutcome where
  | ok (tokens : List Token) (err : Option Error)
  | panic (msg : String)
deriving DecidableEq

/-- The loop of `Lexer::make_tokens`, with fuel (see the header comment;
`none` is fuel exhaustion, a model artifact proven unreachable from `run`).
Branch order as in the source: whitespace, `DIGITS.contains`, then the
`match` on the six operator characters with the illegal-character fallback,
which returns `(vec![], Some(error))` discarding the accumulated tokens. -/
def make_tokens : Nat → List Char → Position → List Token → Option LexOutcome
  | _, [], _, tokens => some (.ok tokens none)
  | fuel + 1, c :: cs, pos, tokens =>
    if rustIsWhitespace c then
      make_tokens fuel cs (pos.advance (some c)) tokens
    else if digitsContains c then
      match make_number [] 0 (c :: cs) pos with
      | .error msg => some (.panic msg)
      | .ok (tok, rest, pos') => make_tokens fuel rest pos' (tokens ++ [tok])
    else
      match c with
      | '+' => make_tokens fuel cs (pos.advance (some c)) (tokens ++ [Token.mk .PLUS])
      | '-' => make_tokens fuel cs (pos.advance (some c)) (tokens ++ [Token.mk .MINUS])
      | '*' => make_tokens fuel cs (pos.advance (some c)) (tokens ++ [Token.mk .MUL])
      | '/' => make_tokens fuel cs (pos.advance (some c)) (tokens ++ [Token.mk .DIV])
      | '(' => make_tokens fuel cs (pos.advance (some c)) (tokens ++ [Token.mk .LPAREN])
      | ')' => make_tokens fuel cs (pos.advance (some c)) (tokens ++ [Token.mk .RPAREN])
      | _ =>
        some (.ok [] (some (Error.mk "Illegal Char Error" pos
          (pos.advance (some c)) (String.singleton c))))
  | 0, _ :: _, _, _ => none

/-- `pub fn run`: `Lexer::new` builds `Position::new(-1, 0, -1, ..)` and
advances once (with `current_char = None`), then `make_tokens` scans the
whole text.  Fuel is the input length, which suffices. -/
def run (fn_name text : String) : Option LexOutcome :=
  make_tokens text.length text.toList
    ((Position.mk (-1) 0 (-1) fn_name text).advance none) []

/-- Binary length of a natural number (number of binary digits, 0 for 0).
The fuel only bounds the recursion depth: 1100 covers every value below
2^1100, in particular the whole binary64 finite range. -/
def bitsFuel : Nat → Nat → Nat
  | 0, _ => 0
  | fuel + 1, n => if n = 0 then 0 else bitsFuel fuel (n / 2) + 1

/-- Binary length, valid for values below 2^1100. -/
def bitLength (n : Nat) : Nat := bitsFuel 1100 n

/-- IEEE-754 binary64 rounding (round to nearest, ties to even) of an
integer value, as the correctly-rounded `str::parse::<f64>` produces it for
an integer-valued literal; valid below the overflow threshold 2^1024.  An
integer of at most 53 bits is exact; otherwise the low `s` bits beyond the
53-bit significand are rounded off: down below the half ulp, up above it,
to the even significand on a tie. -/
def roundF64Nat (n : Nat) : Nat :=
  if bitLength n ≤ 53 then n
  else
    let s := bitLength n - 53
    let m := n / 2 ^ s
    let r := n % 2 ^ s
    let half := 2 ^ (s - 1)
    let m' := if r < half then m
      else if half < r then m + 1
      else if m % 2 = 0 then m else m + 1
    m' * 2 ^ s

example : run "<stdin>" "" = some (.ok [] none) := by decide
example : run "<stdin>" "5 $ 3" =
    some (.ok [] (some (Error.mk "Illegal Char Error"
      (Position.mk 2 0 2 "<stdin>" "5 $ 3")
      (Position.mk 3 0 3 "<stdin>" "5 $ 3") "$"))) := by decide

/-! Unfolding lemmas for the two loops. -/

theorem make_tokens_nil (fuel : Nat) (pos : Position) (tokens : List Token) :
    make_tokens fuel [] pos tokens = some (.ok tokens none) := by
  cases fuel <;> rfl

theorem make_tokens_cons (fuel : Nat) (c : Char) (cs : List Char) (pos : Position)
    (tokens : List Token) :
    make_tokens (fuel + 1) (c :: cs) pos tokens =
      (if rustIsWhitespace c then
        make_tokens fuel cs (pos.advance (some c)) tokens
      else if digitsContains c then
        match make_number [] 0 (c :: cs) pos with
        | .error msg => some (.panic msg)
        | .ok (tok, rest, pos') => make_tokens fuel rest pos' (tokens ++ [tok])
      else
        match c with
        | '+' => make_tokens fuel cs (pos.advance (some c)) (tokens ++ [Token.mk .PLUS])
        | '-' => make_tokens fuel cs (pos.advance (some c)) (tokens ++ [Token.mk .MINUS])
        | '*' => make_tokens fuel cs (pos.advance (some c)) (tokens ++ [Token.mk .MUL])
        | '/' => make_tokens fuel cs (pos.advance (some c)) (tokens ++ [Token.mk .DIV])
        | '(' => make_tokens fuel cs (pos.advance (some c)) (tokens ++ [Token.mk .LPAREN])
        | ')' => make_tokens fuel cs (pos.advance (some c)) (tokens ++ [Token.mk .RPAREN])
        | _ =>
          some (.ok [] (some (Error.mk "Illegal Char Error" pos
            (pos.advance (some c)) (String.singleton c))))) := rfl

theorem make_tokens_cons_ws (fuel : Nat) (c : Char) (cs : List Char) (pos : Position)
    (tokens : List Token) (h : rustIsWhitespace c = true) :
    make_tokens (fuel + 1) (c :: cs) pos tokens =
      make_tokens fuel cs (pos.advance (some c)) tokens := by
  rw [make_tokens_cons, if_pos h]

theorem make_number_cons (num_str : List Char) (dot_count : Nat) (c : Char)
    (cs : List Char) (pos : Position) :
    make_number num_str dot_count (c :: cs) pos =
      (if c.isDigit then
        make_number (num_str ++ [c]) dot_count cs (pos.advance (some c))
      else if c = '.' then
        if dot_count = 1 then make_number_result num_str dot_count (c :: cs) pos
        else make_number (num_str ++ ['.']) (dot_count + 1) cs (pos.advance (some c))
      else make_number_result num_str dot_count (c :: cs) pos) := rfl

/-! Supporting facts: the remainder returned by number scanning never grows,
and a digit at the head guarantees strict consumption; hence fuel equal to
the input length never runs out, so the fuel artifact is unreachable. -/

theorem make_number_result_rest {num_str : List Char} {dot_count : Nat}
    {rest : List Char} {pos : Position} {t : Token} {r' : List Char} {p' : Position}
    (h : make_number_result num_str dot_count rest pos = .ok (t, r', p')) :
    r' = rest ∧ p' = pos := by
  unfold make_number_result at h
  split at h <;> split at h <;> simp_all

theorem make_number_rest_le :
    ∀ (rest num_str : List Char) (dot_count : Nat) (pos : Position)
      (t : Token) (r' : List Char) (p' : Position),
      make_number num_str dot_count rest pos = .ok (t, r', p') →
      r'.length ≤ rest.length := by
  intro rest
  induction rest with
  | nil =>
    intro num_str dot_count pos t r' p' h
    obtain ⟨hr, _⟩ := make_number_result_rest h
    simp [hr]
  | cons c cs ih =>
    intro num_str dot_count pos t r' p' h
    rw [make_number_cons] at h
    split at h
    · exact Nat.le_succ_of_le (ih _ _ _ _ _ _ h)
    · split at h
      · split at h
        · obtain ⟨hr, _⟩ := make_number_result_rest h
          simp [hr]
        · exact Nat.le_succ_of_le (ih _ _ _ _ _ _ h)
      · obtain ⟨hr, _⟩ := make_number_result_rest h
        simp [hr]

theorem digitsContains_isDigit {c : Char} (h : digitsContains c = true) :
    c.isDigit = true := by
  have hl : DIGITS.toList = ['0', '1', '2', '3', '4', '5', '6', '7', '8', '9'] := rfl
  rw [digitsContains, hl] at h
  simp only [List.contains_cons, List.contains_nil, Bool.or_eq_true, beq_iff_eq,
    Bool.or_false] at h
  rcases h with rfl | rfl | rfl | rfl | rfl | rfl | rfl | rfl | rfl | rfl <;> decide

theorem make_number_digit_head_lt {c : Char} {cs : List Char} {pos : Position}
    {t : Token} {r' : List Char} {p' : Position} (hd : c.isDigit = true)
    (h : make_number [] 0 (c :: cs) pos = .ok (t, r', p')) :
    r'.length < (c :: cs).length := by
  rw [make_number_cons, if_pos hd] at h
  exact Nat.lt_succ_of_le (make_number_rest_le _ _ _ _ _ _ _ h)

theorem make_tokens_fuel_enough :
    ∀ (fuel : Nat) (rest : List Char) (pos : Position) (tokens : List Token),
      rest.length ≤ fuel → make_tokens fuel rest pos tokens ≠ none := by
  intro fuel
  induction fuel with
  | zero =>
    intro rest pos tokens hle
    cases rest with
    | nil => rw [make_tokens_nil]; simp
    | cons c cs => simp at hle
  | succ f ih =>
    intro rest pos tokens hle
    cases rest with
    | nil => rw [make_tokens_nil]; simp
    | cons c cs =>
      rw [make_tokens_cons]
      have hcs : cs.length ≤ f := by simpa using hle
      split
      · exact ih _ _ _ hcs
      · next hws =>
        split
        · next hdig =>
          split
          · simp
          · next tok rest' pos' heq =>
            have hlt := make_number_digit_head_lt (digitsContains_isDigit hdig) heq
            have hle' : rest'.length ≤ cs.length := by
              simpa using Nat.lt_succ_iff.mp (by simpa using hlt)
            exact ih _ _ _ (Nat.le_trans hle' hcs)
        · next hdig =>
          split <;> first
            | exact ih _ _ _ hcs
            | simp

/-- The fuel artifact of the embedding never occurs: `run` always yields
an outcome of the source program (a returned pair or a panic). -/
theorem run_no_fuel_exhaustion (fn_name text : String) :
    run fn_name text ≠ none :=
  make_tokens_fuel_enough text.length text.toList _ [] (Nat.le_refl _)

theorem make_number_nil (num_str : List Char) (dot_count : Nat) (pos : Position) :
    make_number num_str dot_count [] pos = make_number_result num_str dot_count [] pos := rfl

/-! Facts about number buffers made of digits followed by a final dot. -/

theorem digit_ne_dot {c : Char} (h : c.isDigit = true) : c ≠ '.' := by
  rintro rfl
  exact absurd h (by decide)

theorem takeWhile_append_all {α : Type} (p : α → Bool) :
    ∀ (l1 l2 : List α), (∀ c ∈ l1, p c = true) →
      (l1 ++ l2).takeWhile p = l1 ++ l2.takeWhile p := by
  intro l1
  induction l1 with
  | nil => intro l2 _; rfl
  | cons a l1' ih =>
    intro l2 h
    rw [List.cons_append, List.takeWhile_cons, if_pos (h a (by simp))]
    rw [ih l2 (fun x hx => h x (by simp [hx]))]
    simp

theorem dropWhile_append_all {α : Type} (p : α → Bool) :
    ∀ (l1 l2 : List α), (∀ c ∈ l1, p c = true) →
      (l1 ++ l2).dropWhile p = l2.dropWhile p := by
  intro l1
  induction l1 with
  | nil => intro l2 _; rfl
  | cons a l1' ih =>
    intro l2 h
    rw [List.cons_append, List.dropWhile_cons_of_pos (h a (by simp))]
    exact ih l2 (fun x hx => h x (by simp [hx]))

theorem parseF64_digits_dot (ds : List Char) (h1 : ds ≠ [])
    (h2 : ds.all Char.isDigit = true) :
    parseF64 (ds ++ ['.']) = some ((digitsToNat ds : ℚ)) := by
  have hall : ∀ c ∈ ds, c.isDigit = true := by simpa [List.all_eq_true] using h2
  have hnotmem : '.' ∉ ds := fun hm => absurd (hall '.' hm) (by decide)
  have hany : (ds ++ ['.']).any Char.isDigit = true := by
    cases ds with
    | nil => exact absurd rfl h1
    | cons d ds' => simp [hall d (by simp)]
  have hdd : (ds ++ ['.']).all (fun c => c.isDigit || c == '.') = true := by
    simp only [List.all_append, Bool.and_eq_true, List.all_eq_true]
    exact ⟨fun x hx => by simp [hall x hx], by simp⟩
  have hcount : (ds ++ ['.']).count '.' ≤ 1 := by
    rw [List.count_append, List.count_eq_zero.mpr hnotmem]
    simp
  have hne : ∀ c ∈ ds, (c != '.') = true :=
    fun c hc => by simpa [bne_iff_ne] using digit_ne_dot (hall c hc)
  rw [parseF64, if_pos ⟨hany, hdd, hcount⟩]
  rw [takeWhile_append_all _ _ _ hne, dropWhile_append_all _ _ _ hne]
  norm_num [digitsToNat]

/-- Consuming a leading all-digit prefix followed by the first dot:
the loop of `make_number` accumulates all of it and advances over it. -/
theorem make_number_leading_digits :
    ∀ (ds num_str : List Char) (pos : Position) (rest : List Char),
      (∀ c ∈ ds, c.isDigit = true) →
      make_number num_str 0 (ds ++ '.' :: rest) pos =
        make_number (num_str ++ ds ++ ['.']) 1 rest
          ((ds ++ ['.']).foldl (fun p c => p.advance (some c)) pos) := by
  intro ds
  induction ds with
  | nil =>
    intro num_str pos rest _
    rw [List.nil_append, make_number_cons, if_neg (by decide),
      if_pos (by decide : ('.' : Char) = '.'), if_neg (by decide)]
    simp
  | cons d ds' ih =>
    intro num_str pos rest hall
    rw [List.cons_append, make_number_cons, if_pos (hall d (by simp))]
    rw [ih _ _ _ (fun x hx => hall x (by simp [hx]))]
    simp [List.append_assoc]

/-- After the first dot, a non-digit non-dot head (or the end of input)
stops the loop of `make_number` without being consumed. -/
theorem make_number_stop (buf : List Char) (rest : List Char) (pos : Position)
    (h : ∀ c, rest.head? = some c → c.isDigit = false ∧ c ≠ '.') :
    make_number buf 1 rest pos = make_number_result buf 1 rest pos := by
  cases rest with
  | nil => rfl
  | cons c cs =>
    obtain ⟨h1, h2⟩ := h c rfl
    rw [make_number_cons, if_neg (by simp [h1]), if_neg h2]

/-! Every error an outcome can carry was built at the single
illegal-character site of `make_tokens`, and alongside an empty token
list: the shape shared by claims about error handling. -/

theorem make_tokens_err_shape :
    ∀ (fuel : Nat) (rest : List Char) (pos : Position) (acc toks : List Token) (e : Error),
      make_tokens fuel rest pos acc = some (.ok toks (some e)) →
      toks = [] ∧ ∃ p c, e = Error.mk "Illegal Char Error" p (p.advance (some c))
        (String.singleton c) := by
  intro fuel
  induction fuel with
  | zero =>
    intro rest pos acc toks e h
    cases rest with
    | nil => rw [make_tokens_nil] at h; simp at h
    | cons c cs =>
      rw [show make_tokens 0 (c :: cs) pos acc = none from rfl] at h
      simp at h
  | succ f ih =>
    intro rest pos acc toks e h
    cases rest with
    | nil => rw [make_tokens_nil] at h; simp at h
    | cons c cs =>
      rw [make_tokens_cons] at h
      split at h
      · exact ih _ _ _ _ _ h
      · split at h
        · split at h
          · simp at h
          · exact ih _ _ _ _ _ h
        · split at h <;>
            first
              | exact ih _ _ _ _ _ h
              | (simp only [Option.some.injEq, LexOutcome.ok.injEq] at h
                 obtain ⟨h1, h2⟩ := h
                 exact ⟨h1.symm, pos, c, h2.symm⟩)

/-! A run over whitespace alone produces no tokens and no error. -/

theorem make_tokens_all_ws :
    ∀ (rest : List Char) (fuel : Nat) (pos : Position) (tokens : List Token),
      (∀ c ∈ rest, rustIsWhitespace c = true) → rest.length ≤ fuel →
      make_tokens fuel rest pos tokens = some (.ok tokens none) := by
  intro rest
  induction rest with
  | nil => intro fuel pos tokens _ _; exact make_tokens_nil _ _ _
  | cons c cs ih =>
    intro fuel pos tokens hws hle
    cases fuel with
    | zero => simp at hle
    | succ f =>
      rw [make_tokens_cons_ws _ _ _ _ _ (hws c (by simp))]
      exact ih _ _ _ (fun x hx => hws x (by simp [hx])) (by simpa using hle)

/-! Leading whitespace followed by a dot: the dot reaches the
illegal-character fallback. -/

theorem make_tokens_ws_then_dot :
    ∀ (ws : List Char) (fuel : Nat) (pos : Position) (tokens : List Token)
      (rest : List Char),
      (∀ c ∈ ws, rustIsWhitespace c = true) → (ws ++ '.' :: rest).length ≤ fuel →
      ∃ p, make_tokens fuel (ws ++ '.' :: rest) pos tokens =
        some (.ok [] (some (Error.mk "Illegal Char Error" p (p.advance (some '.')) "."))) := by
  intro ws
  induction ws with
  | nil =>
    intro fuel pos tokens rest _ hle
    cases fuel with
    | zero => simp at hle
    | succ f => exact ⟨pos, rfl⟩
  | cons c cs ih =>
    intro fuel pos tokens rest hws hle
    cases fuel with
    | zero => simp at hle
    | succ f =>
      rw [List.cons_append, make_tokens_cons_ws _ _ _ _ _ (hws c (by simp))]
      exact ih _ _ _ _ (fun x hx => hws x (by simp [hx])) (by simpa using hle)

theorem advance_idx (p : Position) (oc : Option Char) :
    (p.advance oc).idx = p.idx + 1 := by
  unfold Position.advance
  split <;> rfl

/-! binary64 rounding of an integer fixes every value up to 2^53. -/

theorem bitsFuel_le : ∀ (fuel n k : Nat), n < 2 ^ k → bitsFuel fuel n ≤ k := by
  intro fuel
  induction fuel with
  | zero => intro n k _; simp [bitsFuel]
  | succ f ih =>
    intro n k hk
    by_cases hn : n = 0
    · simp [bitsFuel, hn]
    · have hstep : bitsFuel (f + 1) n = bitsFuel f (n / 2) + 1 := by
        simp [bitsFuel, hn]
      rw [hstep]
      cases k with
      | zero => omega
      | succ k' =>
        have hp : (2 : Nat) ^ (k' + 1) = 2 ^ k' * 2 := pow_succ 2 k'
        have h2 : n / 2 < 2 ^ k' := by omega
        exact Nat.succ_le_succ (ih _ _ h2)

theorem roundF64Nat_eq_self {n : Nat} (h : n ≤ 2 ^ 53) : roundF64Nat n = n := by
  rcases Nat.lt_or_ge n (2 ^ 53) with hlt | hge
  · have hb : bitLength n ≤ 53 := bitsFuel_le 1100 n 53 hlt
    unfold roundF64Nat
    rw [if_pos hb]
  · have heq : n = 2 ^ 53 := Nat.le_antisymm h hge
    subst heq
    decide

/-! The claims. -/

/-- Claim C1, as stated, is false: on the 22-nine input the integer parse
overflows `isize` and `make_tokens` panics out of `.expect`, returning
neither of the two claimed outcomes. -/
theorem c1_counterexample_panic :
    run "<stdin>" "9999999999999999999999" =
      some (.panic "A valid integer was expected") ∧
    ¬ ∃ (toks : List Token) (err : Option Error),
      run "<stdin>" "9999999999999999999999" = some (.ok toks err) := by
  have h : run "<stdin>" "9999999999999999999999" =
      some (.panic "A valid integer was expected") := by decide
  refine ⟨h, ?_⟩
  rintro ⟨toks, err, hrun⟩
  rw [h] at hrun
  simp at hrun

/-- Claim C1 (amended): whenever tokenization returns at all (no overflow
panic), an error outcome carries an empty token list — tokens accumulated
before the fault are discarded — so the result is exactly one of: a token
sequence with no error, or the empty sequence with one error. -/
theorem c1_error_implies_empty_tokens (fn_name text : String) (toks : List Token)
    (e : Error) (h : run fn_name text = some (.ok toks (some e))) : toks = [] :=
  (make_tokens_err_shape text.length text.toList _ [] toks e h).1

/-- Witness for C1 at input `"1 $"`: an `INT(1)` token is accumulated,
then the `$` fault discards it and the returned token list is empty. -/
theorem c1_witness :
    run "<stdin>" "1 $" = some (.ok [] (some (Error.mk "Illegal Char Error"
      (Position.mk 2 0 2 "<stdin>" "1 $") (Position.mk 3 0 3 "<stdin>" "1 $") "$"))) ∧
    ([] : List Token) = [] :=
  ⟨by decide, c1_error_implies_empty_tokens "<stdin>" "1 $" []
    (Error.mk "Illegal Char Error" (Position.mk 2 0 2 "<stdin>" "1 $")
      (Position.mk 3 0 3 "<stdin>" "1 $") "$") (by decide)⟩

/-- Claim C2, as stated, is false: on `"1.2.3"` the returned token
sequence does not contain `Float(1.2)` (or anything else) — the error
return discards it. -/
theorem c2_counterexample_no_float_token :
    run "<stdin>" "1.2.3" = some (.ok [] (some (Error.mk "Illegal Char Error"
      (Position.mk 3 0 3 "<stdin>" "1.2.3") (Position.mk 4 0 4 "<stdin>" "1.2.3") "."))) ∧
    ¬ ∃ (toks : List Token) (err : Option Error),
      run "<stdin>" "1.2.3" = some (.ok toks err) ∧ Token.mk (.FLOAT (6/5)) ∈ toks := by
  have h : run "<stdin>" "1.2.3" = some (.ok [] (some (Error.mk "Illegal Char Error"
      (Position.mk 3 0 3 "<stdin>" "1.2.3") (Position.mk 4 0 4 "<stdin>" "1.2.3") "."))) := by
    decide
  refine ⟨h, ?_⟩
  rintro ⟨toks, err, hrun, hmem⟩
  rw [h] at hrun
  simp only [Option.some.injEq, LexOutcome.ok.injEq] at hrun
  obtain ⟨h1, -⟩ := hrun
  rw [← h1] at hmem
  exact absurd hmem (List.not_mem_nil _)

/-- Claim C2 (amended): on `"1.2.3"`, number scanning produces `Float(1.2)`
and stops right before the second `.`; tokenization then raises the
LexError on that `.` and returns the empty token sequence with it, the
float token being discarded. -/
theorem c2_float_scanned_then_error :
    make_number [] 0 ['1', '.', '2', '.', '3'] (Position.mk 0 0 0 "<stdin>" "1.2.3") =
      .ok (Token.mk (.FLOAT (6/5)), ['.', '3'], Position.mk 3 0 3 "<stdin>" "1.2.3") ∧
    run "<stdin>" "1.2.3" = some (.ok [] (some (Error.mk "Illegal Char Error"
      (Position.mk 3 0 3 "<stdin>" "1.2.3") (Position.mk 4 0 4 "<stdin>" "1.2.3") "."))) := by
  constructor
  · rw [make_number_cons, if_pos (by decide)]
    rw [make_number_cons, if_neg (by decide), if_pos (by decide : ('.' : Char) = '.'),
      if_neg (by decide)]
    rw [make_number_cons, if_pos (by decide)]
    rw [make_number_cons, if_neg (by decide), if_pos (by decide : ('.' : Char) = '.'),
      if_pos (by norm_num)]
    have hbuf : (([] ++ ['1']) ++ ['.']) ++ ['2'] = ['1', '.', '2'] := by simp
    have hpos : (((Position.mk 0 0 0 "<stdin>" "1.2.3").advance (some '1')).advance
        (some '.')).advance (some '2') = Position.mk 3 0 3 "<stdin>" "1.2.3" := by decide
    rw [hbuf, hpos]
    have hp : parseF64 ['1', '.', '2'] =
        some (((digitsToNat ['1'] : ℚ)) + ((digitsToNat ['2'] : ℚ)) / 10 ^ (1 : Nat)) := rfl
    unfold make_number_result
    rw [if_neg (by decide : ¬(1 = 0)), hp]
    simp only [Except.ok.injEq, Prod.mk.injEq, Token.mk.injEq, TokenType.FLOAT.injEq]
    norm_num [(by decide : digitsToNat ['1'] = 1), (by decide : digitsToNat ['2'] = 2)]
  · decide

/-- Claim C3: whitespace-only input (the empty string included) yields the
empty token sequence and no error. -/
theorem c3_whitespace_empty (fn_name text : String)
    (h : ∀ c ∈ text.toList, rustIsWhitespace c = true) :
    run fn_name text = some (.ok [] none) :=
  make_tokens_all_ws text.toList text.length _ [] h (Nat.le_refl _)

/-- Witness for C3 at the empty string. -/
theorem c3_witness :
    (∀ c ∈ ("" : String).toList, rustIsWhitespace c = true) ∧
    run "<stdin>" "" = some (.ok [] none) :=
  ⟨fun c hc => absurd hc (List.not_mem_nil c),
   c3_whitespace_empty "<stdin>" "" (fun c hc => absurd hc (List.not_mem_nil c))⟩

/-- Claim C4: `"3 + 4 * (2 - 1)"` tokenizes without error into exactly the
nine tokens rendering as INT(3), PLUS, INT(4), MULTIPLY, LEFT-PAREN,
INT(2), MINUS, INT(1), RPAREN. -/
theorem c4_expression_tokens :
    run "<stdin>" "3 + 4 * (2 - 1)" = some (.ok [Token.mk (.INT 3), Token.mk .PLUS,
      Token.mk (.INT 4), Token.mk .MUL, Token.mk .LPAREN, Token.mk (.INT 2),
      Token.mk .MINUS, Token.mk (.INT 1), Token.mk .RPAREN] none) ∧
    [Token.mk (.INT 3), Token.mk .PLUS, Token.mk (.INT 4), Token.mk .MUL,
      Token.mk .LPAREN, Token.mk (.INT 2), Token.mk .MINUS, Token.mk (.INT 1),
      Token.mk .RPAREN].map Token.render =
      ["INT(3)", "PLUS", "INT(4)", "MULTIPLY", "LEFT-PAREN", "INT(2)", "MINUS",
        "INT(1)", "RPAREN"] :=
  ⟨by decide, by decide⟩

/-- Claim C5 is contradicted by the code at a 20-digit literal: the buffer
is a valid nonempty digit string, yet `parse::<isize>` overflows and the
`.expect` panics, against the code's own "A valid integer was expected". -/
theorem c5_overflow_panics :
    run "<stdin>" "99999999999999999999" =
      some (.panic "A valid integer was expected") := by decide

/-- Claim C6: every LexError a run returns has `details` equal to a single
offending character, `pos_end` equal to `pos_start` advanced over exactly
that character, and hence an end offset of start offset plus one. -/
theorem c6_error_positions (fn_name text : String) (toks : List Token) (e : Error)
    (h : run fn_name text = some (.ok toks (some e))) :
    ∃ c : Char, e.details = String.singleton c ∧
      e.pos_end = e.pos_start.advance (some c) ∧
      e.pos_end.idx = e.pos_start.idx + 1 := by
  obtain ⟨-, p, c, rfl⟩ := make_tokens_err_shape text.length text.toList _ [] toks e h
  exact ⟨c, rfl, rfl, advance_idx p (some c)⟩

/-- Witness for C6 at input `"$"`. -/
theorem c6_witness :
    ∃ c : Char, (Error.mk "Illegal Char Error" (Position.mk 0 0 0 "<stdin>" "$")
        (Position.mk 1 0 1 "<stdin>" "$") "$").details = String.singleton c ∧
      (Error.mk "Illegal Char Error" (Position.mk 0 0 0 "<stdin>" "$")
        (Position.mk 1 0 1 "<stdin>" "$") "$").pos_end =
        (Error.mk "Illegal Char Error" (Position.mk 0 0 0 "<stdin>" "$")
          (Position.mk 1 0 1 "<stdin>" "$") "$").pos_start.advance (some c) ∧
      (Error.mk "Illegal Char Error" (Position.mk 0 0 0 "<stdin>" "$")
        (Position.mk 1 0 1 "<stdin>" "$") "$").pos_end.idx =
        (Error.mk "Illegal Char Error" (Position.mk 0 0 0 "<stdin>" "$")
          (Position.mk 1 0 1 "<stdin>" "$") "$").pos_start.idx + 1 :=
  c6_error_positions "<stdin>" "$" [] (Error.mk "Illegal Char Error"
    (Position.mk 0 0 0 "<stdin>" "$") (Position.mk 1 0 1 "<stdin>" "$") "$") (by decide)

/-- Claim C7: `advance` always increments the offset by one, and increments
the column by one except on a newline, where it instead increments the line
and resets the column to zero; it is total, the absent-character case
included, and touches no other field. -/
theorem c7_advance_spec (p : Position) (oc : Option Char) :
    (p.advance oc).idx = p.idx + 1 ∧
    (p.advance oc).ln = (if oc = some '\n' then p.ln + 1 else p.ln) ∧
    (p.advance oc).col = (if oc = some '\n' then 0 else p.col + 1) ∧
    (p.advance oc).fn_name = p.fn_name ∧ (p.advance oc).ftxt = p.ftxt := by
  unfold Position.advance
  by_cases h : oc = some '\n' <;> simp [h]

/-- Claim C8: `"5 $ 3"` under source name `"<stdin>"` yields no tokens and
an error rendering exactly the two lines `Illegal Char Error: $` and
`File <stdin>, line 1`, while the stored start line is the zero-based 0. -/
theorem c8_error_rendering :
    run "<stdin>" "5 $ 3" = some (.ok [] (some (Error.mk "Illegal Char Error"
      (Position.mk 2 0 2 "<stdin>" "5 $ 3") (Position.mk 3 0 3 "<stdin>" "5 $ 3") "$"))) ∧
    (Error.mk "Illegal Char Error" (Position.mk 2 0 2 "<stdin>" "5 $ 3")
      (Position.mk 3 0 3 "<stdin>" "5 $ 3") "$").render =
      "Illegal Char Error: $\nFile <stdin>, line 1" ∧
    (Position.mk 2 0 2 "<stdin>" "5 $ 3").ln = 0 :=
  ⟨by decide, by decide, rfl⟩

/-- Claim C9: an input of whitespace followed by `.` (and anything after)
returns the empty token sequence and an Illegal Char error whose detail is
`"."` — a dot not preceded by a digit never enters number scanning. -/
theorem c9_leading_dot_error (fn_name : String) (ws rest : List Char)
    (h : ∀ c ∈ ws, rustIsWhitespace c = true) :
    ∃ p, run fn_name (String.mk (ws ++ '.' :: rest)) =
      some (.ok [] (some (Error.mk "Illegal Char Error" p (p.advance (some '.')) "."))) :=
  make_tokens_ws_then_dot ws (String.mk (ws ++ '.' :: rest)).length _ [] rest h
    (Nat.le_refl _)

/-- Witness for C9 at input `".5"`. -/
theorem c9_witness :
    ∃ p, run "<stdin>" (String.mk ([] ++ '.' :: ['5'])) =
      some (.ok [] (some (Error.mk "Illegal Char Error" p (p.advance (some '.')) "."))) :=
  c9_leading_dot_error "<stdin>" [] ['5'] (fun c hc => absurd hc (List.not_mem_nil c))

/-- Claim C10, as stated, is false of the program: `str::parse::<f64>` is
correctly rounded binary64, so on `"9007199254740993."` — the digits' value
is 2^53 + 1 — the single Float token the scan produces carries an f64
equal to 9007199254740992, not the integer value of the digits: the scan
reaches the one token with no error, but its rounded value differs. -/
theorem c10_counterexample_rounding :
    run "<stdin>" "9007199254740993." = some (.ok [Token.mk (.FLOAT
      ((digitsToNat ['9', '0', '0', '7', '1', '9', '9', '2', '5', '4', '7', '4',
        '0', '9', '9', '3'] : Nat) : ℚ))] none) ∧
    digitsToNat ['9', '0', '0', '7', '1', '9', '9', '2', '5', '4', '7', '4',
      '0', '9', '9', '3'] = 9007199254740993 ∧
    roundF64Nat 9007199254740993 = 9007199254740992 ∧
    (9007199254740992 : Nat) ≠ 9007199254740993 := by
  refine ⟨?_, by decide, by decide, by decide⟩
  show make_tokens 17
    ['9', '0', '0', '7', '1', '9', '9', '2', '5', '4', '7', '4', '0', '9', '9', '3', '.']
    (Position.mk 0 0 0 "<stdin>" "9007199254740993.") [] = _
  rw [make_tokens_cons, if_neg (by decide), if_pos (by decide)]
  rw [show (['9', '0', '0', '7', '1', '9', '9', '2', '5', '4', '7', '4', '0', '9', '9',
      '3', '.'] : List Char) =
    ['9', '0', '0', '7', '1', '9', '9', '2', '5', '4', '7', '4', '0', '9', '9', '3'] ++
      '.' :: [] from rfl]
  rw [make_number_leading_digits _ _ _ _ (by decide)]
  rw [List.nil_append, make_number_nil]
  unfold make_number_result
  rw [if_neg (by decide : ¬(1 = 0)), parseF64_digits_dot _ (by decide) (by decide)]
  simp [make_tokens_nil]

/-- Claim C10 (amended): a digit run followed by a single dot that no digit
follows is consumed dot included, producing with no error a Float token
whose value equals the integer value of the digits whenever that value is
at most 2^53, the binary64-exact integer range, where the parse's rounding
is the identity; e.g. `"3."` runs to `[FLOAT(3)]` and no error. -/
theorem c10_trailing_dot_float (ds rest : List Char) (pos : Position)
    (h1 : ds ≠ []) (h2 : ds.all Char.isDigit = true)
    (h3 : ∀ c, rest.head? = some c → c.isDigit = false ∧ c ≠ '.')
    (h4 : digitsToNat ds ≤ 2 ^ 53) :
    make_number [] 0 (ds ++ '.' :: rest) pos =
      .ok (Token.mk (.FLOAT ((digitsToNat ds : ℚ))), rest,
        (ds ++ ['.']).foldl (fun p c => p.advance (some c)) pos) ∧
    roundF64Nat (digitsToNat ds) = digitsToNat ds ∧
    run "<stdin>" "3." = some (.ok [Token.mk (.FLOAT 3)] none) := by
  refine ⟨?_, roundF64Nat_eq_self h4, ?_⟩
  · rw [make_number_leading_digits ds [] pos rest (by simpa [List.all_eq_true] using h2)]
    rw [List.nil_append]
    rw [make_number_stop _ _ _ h3]
    unfold make_number_result
    rw [if_neg (by decide : ¬(1 = 0)), parseF64_digits_dot ds h1 h2]
  · show make_tokens 2 ['3', '.'] (Position.mk 0 0 0 "<stdin>" "3.") [] = _
    rw [make_tokens_cons]
    rw [if_neg (by decide), if_pos (by decide)]
    rw [make_number_cons, if_pos (by decide)]
    rw [make_number_cons, if_neg (by decide), if_pos (by decide : ('.' : Char) = '.'),
      if_neg (by decide)]
    rw [make_number_nil]
    have hp : parseF64 ([] ++ ['3'] ++ ['.']) = some ((digitsToNat ['3'] : ℚ)) := by
      simpa using parseF64_digits_dot ['3'] (by simp) (by decide)
    simp only [List.append_assoc, List.nil_append] at hp ⊢
    simp only [make_number_result, hp]
    norm_num
    rw [make_tokens_nil]
    norm_num [(by decide : digitsToNat ['3'] = 3)]

/-- Witness for C10 at `ds = ['3']`, empty remainder: 3 is within the
exact range, so the rounded value is the digits' value 3. -/
theorem c10_witness :
    make_number [] 0 (['3'] ++ '.' :: []) (Position.mk 0 0 0 "<stdin>" "3.") =
      .ok (Token.mk (.FLOAT ((digitsToNat ['3'] : ℚ))), [],
        (['3'] ++ ['.']).foldl (fun p c => p.advance (some c))
          (Position.mk 0 0 0 "<stdin>" "3.")) ∧
    roundF64Nat (digitsToNat ['3']) = digitsToNat ['3'] ∧
    run "<stdin>" "3." = some (.ok [Token.mk (.FLOAT 3)] none) :=
  c10_trailing_dot_float ['3'] [] (Position.mk 0 0 0 "<stdin>" "3.")
    (by simp) (by decide) (fun c hc => by simp at hc) (by decide)

end SipIt
